import Mathlib

/-!
Verification of the script-execution bridge in
`src/lib/neovim/plugin/script_host.py` (a bundled copy of the neovim
python script host).

The embedding below follows the source file closely:

* `num_to_str`, `LegacyVim_eval` embed `num_to_str` and `LegacyVim.eval`
  (lines 160-176).
* `get_lines` / `set_lines` model the host's bulk buffer interface
  (`nvim_buf_get_lines` / `nvim_buf_set_lines`); per the spec's external
  interface section both operate on half-open 0-based intervals `[a, b)`.
* `batchLoop` / `rangeLoop` / `python_do_range_core` embed the body of
  `ScriptHost.python_do_range` (lines 86-137), instrumented with a trace of
  the buffer API calls made and of the `(line, linenr)` arguments passed to
  the user function.
* `python_execute`, `python_execute_file`, `python_eval`, `python_do_range`
  embed the four RPC dispatcher operations over a bridge state.
* `splitFirstDot`, `_find_module`, `VimPathFinder_find_module`,
  `discover_runtime_directories` embed the import-hook machinery
  (lines 180-243).

Arbitrary Python code appearing in the source (`exec(script, ...)`,
`eval(expr, ...)`, the compiled `_vim_pydo` body) is shallowly embedded as a
function parameter acting on the namespace / line, which is exactly the
interface the source gives it.
-/

/-! ### Python values crossing the msgpack boundary -/

inductive PyValue where
  | pyNone
  | pyBool (b : Bool)
  | pyInt (n : Int)
  | pyFloat (f : Float)
  | pyStr (s : String)
  | pyList (xs : List PyValue)
  | pyDict (kvs : List (PyValue × PyValue))

/-- Embeds `num_to_str` (script_host.py lines 166-170).  On Python 3,
`num_types = (int, float)`; note `bool` is a subclass of `int` in Python, so
booleans also satisfy the `isinstance` check and are stringified. -/
def num_to_str : PyValue → PyValue
  | .pyBool b => .pyStr (if b then "True" else "False")
  | .pyInt n => .pyStr (toString n)
  | .pyFloat f => .pyStr (toString f)
  | v => v

mutual
/-- Modelled from the spec: `walk` lives in the repository's `api` module,
which is not under `src/`; the spec says the conversion is applied to every
node of the host's reply, "all other structures pass through unchanged,
recursively".  Lists recurse element-wise, dicts recurse over keys and
values, every other node has `fn` applied to it. -/
def walk (fn : PyValue → PyValue) : PyValue → PyValue
  | .pyList xs => .pyList (walkList fn xs)
  | .pyDict kvs => .pyDict (walkPairs fn kvs)
  | v => fn v

def walkList (fn : PyValue → PyValue) : List PyValue → List PyValue
  | [] => []
  | x :: xs => walk fn x :: walkList fn xs

def walkPairs (fn : PyValue → PyValue) : List (PyValue × PyValue) → List (PyValue × PyValue)
  | [] => []
  | (k, v) :: rest => (walk fn k, walk fn v) :: walkPairs fn rest
end

/-- Embeds `LegacyVim.eval` (lines 173-176): request `vim_eval` from the
host, then `walk(num_to_str, obj)` over the reply.  The host is the external
collaborator answering `vim_eval` requests. -/
def LegacyVim_eval (host : String → PyValue) (expr : String) : PyValue :=
  walk num_to_str (host expr)

/-! ### The shared execution namespace (`self.module.__dict__`) -/

/-- Result type of the compiled `_vim_pydo` body: the source inspects the
user function's return value with `result is None` /
`isinstance(result, basestring)` / anything else (lines 112-127). -/
inductive PydoRet where
  | ret_none
  | ret_str (s : String)
  | ret_other (className : String)

/-- A value bound in the execution namespace: an arbitrary Python object, or
the compiled per-line function installed by `python_do_range`. -/
inductive NsVal where
  | obj (v : PyValue)
  | pyfunc (f : String → Nat → PydoRet)

/-- The shared mutable namespace `self.module.__dict__`. -/
def PyNamespace : Type := String → Option NsVal

/-- Binding assignment in the namespace (dict item assignment / `exec` of a
`def`). -/
def nsSet (ns : PyNamespace) (k : String) (v : NsVal) : PyNamespace :=
  fun x => if x = k then some v else ns x

/-- `del d[k]` on the namespace. -/
def nsDel (ns : PyNamespace) (k : String) : PyNamespace :=
  fun x => if x = k then none else ns x

def emptyNs : PyNamespace := fun _ => none

/-! ### The host buffer interface -/

/-- `nvim.current.buffer.api.get_lines(s, e, True)`: bulk read of the
half-open 0-based line interval `[s, e)` (spec, external interfaces). -/
def get_lines (buf : List String) (s e : Nat) : List String :=
  (buf.drop s).take (e - s)

/-- `nvim.current.buffer.api.set_lines(s, e, True, repl)`: bulk replacement
of the half-open 0-based line interval `[s, e)` by `repl` (spec, external
interfaces). -/
def set_lines (buf : List String) (s e : Nat) (repl : List String) : List String :=
  buf.take s ++ repl ++ buf.drop e

/-- One remote buffer call made by `python_do_range` (instrumentation of the
two API entry points above). -/
inductive ApiCall where
  | getLines (s e : Nat)
  | setLines (s e : Nat) (repl : List String)
deriving DecidableEq

/-! ### The batched range-apply engine (`python_do_range`, lines 86-137) -/

/-- State coming out of the `for i, line in enumerate(lines)` loop of one
batch: buffer, write cursor `sstart`, pending run `newlines`, the buffer API
calls issued, the `(line, linenr)` arguments the user function was called
with, and the pending `exception` (the `TypeError` class name of the
offending return value). -/
structure BatchOut where
  buf : List String
  sstart : Nat
  newlines : List String
  calls : List ApiCall
  fcalls : List (String × Nat)
  err : Option String

/-- The `for i, line in enumerate(lines)` loop (lines 110-128).  Per line:
call the function; on `None` flush the pending run with
`set_lines(sstart, sstart + len(newlines) - 1, newlines)` (only if the run
is non-empty) and advance `sstart` by `len(newlines) + 1`; on a string
append to the run; on anything else record the `TypeError` and break.
`linenr` is incremented at the bottom of the loop body, so on every branch
except the `break`. -/
def batchLoop (f : String → Nat → PydoRet) (buf : List String) (sstart : Nat)
    (newlines : List String) (linenr : Nat) : List String → BatchOut
  | [] => ⟨buf, sstart, newlines, [], [], none⟩
  | line :: rest =>
    match f line linenr with
    | .ret_str s =>
        let o := batchLoop f buf sstart (newlines ++ [s]) (linenr + 1) rest
        { o with fcalls := (line, linenr) :: o.fcalls }
    | .ret_none =>
        if newlines.isEmpty then
          let o := batchLoop f buf (sstart + newlines.length + 1) [] (linenr + 1) rest
          { o with fcalls := (line, linenr) :: o.fcalls }
        else
          let e := sstart + newlines.length - 1
          let buf1 := set_lines buf sstart e newlines
          let o := batchLoop f buf1 (sstart + newlines.length + 1) [] (linenr + 1) rest
          { o with calls := ApiCall.setLines sstart e newlines :: o.calls,
                   fcalls := (line, linenr) :: o.fcalls }
    | .ret_other c => ⟨buf, sstart, newlines, [], [(line, linenr)], some c⟩

/-- Result of the whole `while start < stop` loop. -/
structure RangeOut where
  buf : List String
  calls : List ApiCall
  fcalls : List (String × Nat)
  err : Option String

/-- The `while start < stop` loop (lines 98-135).  Each batch covers
`[start, min(start + 5000, stop))`: one bulk read, the per-line loop, then
`start = sstop`, a final flush of the pending run with
`set_lines(sstart, sstart + len(newlines), newlines)`, and the deferred
`raise exception` which ends the call. -/
def rangeLoop (f : String → Nat → PydoRet) (buf : List String)
    (start stop : Nat) : RangeOut :=
  if h : start < stop then
    let sstop := min (start + 5000) stop
    let lines := get_lines buf start sstop
    let o := batchLoop f buf start [] (start + 1) lines
    let flushed :=
      if o.newlines.isEmpty then (o.buf, ([] : List ApiCall))
      else (set_lines o.buf o.sstart (o.sstart + o.newlines.length) o.newlines,
            [ApiCall.setLines o.sstart (o.sstart + o.newlines.length) o.newlines])
    match o.err with
    | some c => ⟨flushed.1, ApiCall.getLines start sstop :: (o.calls ++ flushed.2),
                 o.fcalls, some c⟩
    | none =>
        let r := rangeLoop f flushed.1 sstop stop
        ⟨r.buf, ApiCall.getLines start sstop :: (o.calls ++ flushed.2) ++ r.calls,
         o.fcalls ++ r.fcalls, r.err⟩
  else ⟨buf, [], [], none⟩
termination_by stop - start
decreasing_by
  omega

/-- The reserved name of the temporarily installed per-line function. -/
def pydoFname : String := "_vim_pydo"

/-- Embeds `python_do_range` minus the dispatcher wrapper (lines 86-137):
decrement `start`, `exec` the `def _vim_pydo(line, linenr): ...` into the
shared namespace, run the batch loop, and `del` the name again — but only on
the normal exit path: the `raise exception` inside the `while` loop leaves
the function bound (the `del` at line 137 is skipped). -/
def python_do_range_core (ns : PyNamespace) (buf : List String)
    (start stop : Nat) (f : String → Nat → PydoRet) : PyNamespace × RangeOut :=
  let ns1 := nsSet ns pydoFname (.pyfunc f)
  let r := rangeLoop f buf (start - 1) stop
  match r.err with
  | some _ => (ns1, r)
  | none => (nsDel ns1 pydoFname, r)

/-! ### The RPC dispatcher (lines 65-146) -/

/-- A traceback: the formatted frames of a Python exception, outermost frame
first.  The dispatcher's own `exec`/`eval` frame is the first entry. -/
def Traceback : Type := List String

/-- Exceptions that can escape an RPC handler uncaught. -/
inductive PyExc where
  | user (tb : List String)
  | typeError (className : String)
  | ioError (path : String)

/-- What an RPC handler hands back to the msgpack-rpc layer: a normal
return, a raised `ErrorResponse` (the structured error contract), or an
arbitrary uncaught exception. -/
inductive RpcOutcome (α : Type) where
  | ok (v : α)
  | errorResponse (trace : List String)
  | uncaught (e : PyExc)

/-- Modelled from the spec: `format_exc_skip` lives in the repository's
`util` module, which is not under `src/`.  The spec says the structured
error carries "a trace that omits the dispatcher's own call frame"; with
tracebacks listed outermost frame first, skipping `skip` frames drops that
many leading frames. -/
def format_exc_skip (skip : Nat) (tb : List String) : List String :=
  tb.drop skip

/-- The effect of `exec`uting a user script on the shared namespace: the
mutated namespace plus the traceback of the exception it raised, if any
(mutations made before the raise persist, as with a real dict). -/
def ScriptEff : Type := PyNamespace → PyNamespace × Option (List String)

/-- The bridge state: the single long-lived module namespace, the host's
current buffer, and the legacy `current.range` set before each request. -/
structure HostState where
  module : PyNamespace
  buf : List String
  currentRange : Nat × Nat

/-- Embeds `python_execute` (lines 65-72): set the current range, `exec` the
script in the shared namespace, and convert any exception into
`ErrorResponse(format_exc_skip(1))`. -/
def python_execute (st : HostState) (script : ScriptEff)
    (rangeStart rangeStop : Nat) : HostState × RpcOutcome Unit :=
  let st1 : HostState := { st with currentRange := (rangeStart, rangeStop) }
  match script st1.module with
  | (ns, none) => ({ st1 with module := ns }, .ok ())
  | (ns, some tb) => ({ st1 with module := ns }, .errorResponse (format_exc_skip 1 tb))

/-- The outcome of opening and compiling the file in `python_execute_file`:
`open` and `compile` run outside the `try`, so their failures escape
uncaught; only the `exec` of the compiled script is guarded. -/
inductive FileRead where
  | ioError (path : String)
  | compiled (script : ScriptEff)

/-- Embeds `python_execute_file` (lines 74-83): set the current range, read
and compile the file (failures uncaught), then `exec` under the same
`ErrorResponse` conversion as `python_execute`. -/
def python_execute_file (st : HostState) (_path : String) (file : FileRead)
    (rangeStart rangeStop : Nat) : HostState × RpcOutcome Unit :=
  let st1 : HostState := { st with currentRange := (rangeStart, rangeStop) }
  match file with
  | .ioError p => (st1, .uncaught (.ioError p))
  | .compiled script =>
    match script st1.module with
    | (ns, none) => ({ st1 with module := ns }, .ok ())
    | (ns, some tb) => ({ st1 with module := ns }, .errorResponse (format_exc_skip 1 tb))

/-- The effect of `eval`uating a user expression against the shared
namespace: a value, or the traceback of the exception it raised. -/
def ExprEff : Type := PyNamespace → Except (List String) PyValue

/-- Embeds `python_eval` (lines 139-142): `return eval(expr, ...)` with no
`try` around it — the raw value is returned and any exception escapes the
handler uncaught. -/
def python_eval (st : HostState) (expr : ExprEff) : HostState × RpcOutcome PyValue :=
  match expr st.module with
  | .ok v => (st, .ok v)
  | .error tb => (st, .uncaught (.user tb))

/-- Embeds the `python_do_range` RPC operation: set the current range (done
before the `start -= 1`), run the engine, and let the deferred `TypeError`
escape uncaught (there is no `try` in `python_do_range`). -/
def python_do_range (st : HostState) (start stop : Nat)
    (f : String → Nat → PydoRet) : HostState × RpcOutcome Unit :=
  let st1 : HostState := { st with currentRange := (start, stop) }
  let res := python_do_range_core st1.module st1.buf start stop f
  let st2 : HostState := { st1 with module := res.1, buf := res.2.buf }
  match res.2.err with
  | some c => (st2, .uncaught (.typeError c))
  | none => (st2, .ok ())

/-! ### Sequences of RPC calls on one bridge instance -/

/-- One remote call on the bridge. -/
inductive Op where
  | exec (script : ScriptEff) (rangeStart rangeStop : Nat)
  | execFile (path : String) (file : FileRead) (rangeStart rangeStop : Nat)
  | eval (expr : ExprEff)
  | doRange (start stop : Nat) (f : String → Nat → PydoRet)

/-- State transition of one RPC call (the outcome is dropped). -/
def runOp (st : HostState) : Op → HostState
  | .exec s a b => (python_execute st s a b).1
  | .execFile p fl a b => (python_execute_file st p fl a b).1
  | .eval e => (python_eval st e).1
  | .doRange a b f => (python_do_range st a b f).1

/-- Run a sequence of RPC calls against the same bridge instance. -/
def runOps (st : HostState) (ops : List Op) : HostState :=
  ops.foldl runOp st

/-- `op` does not disturb the binding of `x` to `v`: `exec` scripts may do
anything, so they must be assumed to preserve it; `eval` and `do_range` act
on the namespace only through the source's own code. -/
def opPreserves (x : String) (v : NsVal) : Op → Prop
  | .exec s _ _ => ∀ ns, ns x = some v → (s ns).1 x = some v
  | .execFile _ fl _ _ =>
    match fl with
    | .ioError _ => True
    | .compiled s => ∀ ns, ns x = some v → (s ns).1 x = some v
  | .eval _ => True
  | .doRange _ _ _ => True

/-! ### The import hook (lines 180-243) -/

/-- Split a dotted module name the way `_find_module` does with
`idx = oldtail.find('.')` and `idx > 0`: a leading-dot or undotted name goes
to the plain-lookup branch. -/
def splitFirstDot (s : String) : Option (String × String) :=
  match s.splitOn "." with
  | [] => none
  | head :: tail =>
    if head.isEmpty then none
    else if tail.isEmpty then none
    else some (head, String.intercalate "." tail)

/-- Errors escaping `_find_module`. -/
inductive PyFindErr where
  | importError
  | typeError
deriving DecidableEq

/-- `VimModuleLoader` holding the `imp.find_module` result. -/
structure VimModuleLoader where
  module : String

/-- Embeds `_find_module` (lines 184-193) against an abstract
`imp.find_module` oracle (`impFind name path = none` means it raised
`ImportError`).  In the dotted branch the source calls
`imp.find_module(fullname[:-len(oldtail)] + name, *fmr)` where `fmr` is the
3-tuple returned by the first lookup — four positional arguments to a
two-parameter function, which raises `TypeError`; the recursive call below
it is therefore unreachable and the branch is embedded as raising once the
first component is found.  Note the undotted branch looks up `fullname`,
not `oldtail`. -/
def _find_module (impFind : String → List String → Option String)
    (fullname oldtail : String) (path : List String) : Except PyFindErr String :=
  match splitFirstDot oldtail with
  | some (name, _tail) =>
    match impFind name path with
    | none => .error .importError
    | some _fmr => .error .typeError
  | none =>
    match impFind fullname path with
    | none => .error .importError
    | some m => .ok m

/-- Embeds `VimPathFinder.find_module` (lines 206-213): resolve the search
path (`path or _get_paths()` — an empty list is falsy in Python), run
`_find_module`, wrap the result in a loader, and turn `ImportError` into
`None` (decline); any other exception escapes. -/
def VimPathFinder_find_module (impFind : String → List String → Option String)
    (roots : List String) (fullname : String) (path : Option (List String)) :
    Except PyFindErr (Option VimModuleLoader) :=
  let effPath :=
    match path with
    | none => roots
    | some p => if p.isEmpty then roots else p
  match _find_module impFind fullname fullname effPath with
  | .ok m => .ok (some ⟨m⟩)
  | .error .importError => .ok none
  | .error .typeError => .error .typeError

/-- The first name `_find_module` hands to `imp.find_module`. -/
def firstLookupName (fullname : String) : String :=
  match splitFirstDot fullname with
  | some (name, _) => name
  | none => fullname

/-- Embeds `discover_runtime_directories` (lines 229-243, Python 3 branch):
for each host-reported runtime path that exists, append `pythonx` and
`python3` subdirectories when they exist, in the host's order. -/
def discover_runtime_directories (runtimePaths : List String)
    (pathExists : String → Bool) : List String :=
  runtimePaths.foldl
    (fun rv path =>
      if pathExists path then
        let path1 := path ++ "/pythonx"
        let path2 := path ++ "/python3"
        let rv1 := if pathExists path1 then rv ++ [path1] else rv
        if pathExists path2 then rv1 ++ [path2] else rv1
      else rv)
    []

/-! ## Basic namespace lemmas -/

theorem nsSet_self (ns : PyNamespace) (k : String) (v : NsVal) :
    nsSet ns k v k = some v := by
  simp [nsSet]

theorem nsSet_other (ns : PyNamespace) (k x : String) (v : NsVal) (h : x ≠ k) :
    nsSet ns k v x = ns x := by
  simp [nsSet, h]

theorem nsDel_self (ns : PyNamespace) (k : String) : nsDel ns k k = none := by
  simp [nsDel]

theorem nsDel_other (ns : PyNamespace) (k x : String) (h : x ≠ k) :
    nsDel ns k x = ns x := by
  simp [nsDel, h]

/-- An initialized bridge state with an empty namespace and empty buffer. -/
def st0 : HostState := ⟨emptyNs, [], (0, 0)⟩

/-! ## C10 -/

/-- C10: `num_to_str` returns the decimal string `str(obj)` for int and
float inputs and returns non-numeric input unchanged, and `LegacyVim.eval`
applies the conversion to every node of the host's reply — the coercion is
performed by the legacy `vim.eval` view, while `python_eval` passes its
value through untouched. -/
theorem claim_C10_theorem :
    (∀ n : Int, num_to_str (.pyInt n) = .pyStr (toString n))
    ∧ (∀ f : Float, num_to_str (.pyFloat f) = .pyStr (toString f))
    ∧ (∀ s, num_to_str (.pyStr s) = .pyStr s)
    ∧ (num_to_str .pyNone = .pyNone)
    ∧ (∀ xs, num_to_str (.pyList xs) = .pyList xs)
    ∧ (∀ kvs, num_to_str (.pyDict kvs) = .pyDict kvs)
    ∧ (∀ host expr, LegacyVim_eval host expr = walk num_to_str (host expr))
    ∧ (∀ n m : Int, walk num_to_str (.pyList [.pyInt n, .pyList [.pyInt m]])
        = .pyList [.pyStr (toString n), .pyList [.pyStr (toString m)]])
    ∧ (∀ st (n : Int), python_eval st (fun _ => .ok (.pyInt n)) = (st, .ok (.pyInt n))) := by
  refine ⟨fun n => rfl, fun f => rfl, fun s => rfl, rfl, fun xs => rfl, fun kvs => rfl,
    fun host expr => rfl, fun n m => ?_, fun st n => rfl⟩
  simp [walk, walkList, num_to_str]

/-! ## C1 -/

/-- C1 counterexample: `python_eval` hands an evaluated `int` back to the
host as-is — the numeric value is not coerced to its textual representation
at the `python_eval` boundary. -/
theorem claim_C1_counterexample :
    python_eval st0 (fun _ => .ok (.pyInt 2)) = (st0, .ok (.pyInt 2))
    ∧ PyValue.pyInt 2 ≠ PyValue.pyStr "2" :=
  ⟨rfl, fun h => PyValue.noConfusion h⟩

/-- C1 (amended): values returned by `python_eval` cross the boundary
unchanged; the recursive numeric-to-text coercion is applied by the legacy
`vim.eval` view (`LegacyVim.eval`), not by the `python_eval` RPC
operation. -/
theorem claim_C1_theorem (st : HostState) (expr : ExprEff) (v : PyValue)
    (h : expr st.module = .ok v) :
    python_eval st expr = (st, .ok v)
    ∧ ∀ host e, LegacyVim_eval host e = walk num_to_str (host e) := by
  refine ⟨?_, fun host e => rfl⟩
  simp [python_eval, h]

/-- C1 witness: the amended statement at a concrete state and expression. -/
theorem claim_C1_witness :
    python_eval st0 (fun _ => .ok (.pyInt 3)) = (st0, .ok (.pyInt 3))
    ∧ ∀ host e, LegacyVim_eval host e = walk num_to_str (host e) :=
  claim_C1_theorem st0 (fun _ => .ok (.pyInt 3)) (.pyInt 3) rfl

/-! ## C2 -/

/-- C2 counterexample: an exception raised while evaluating a user
expression escapes `python_eval` uncaught — it is not converted into a
structured error response at the dispatcher boundary. -/
theorem claim_C2_counterexample :
    python_eval st0 (fun _ => .error ["dispatcher frame", "user frame"])
      = (st0, .uncaught (.user ["dispatcher frame", "user frame"]))
    ∧ ∀ trace, RpcOutcome.uncaught (α := PyValue) (.user ["dispatcher frame", "user frame"])
        ≠ .errorResponse trace :=
  ⟨rfl, fun _ h => RpcOutcome.noConfusion h⟩

/-- C2 (amended): `python_execute` and `python_execute_file` catch
user-code exceptions and convert them into a structured error response whose
trace omits the dispatcher's own (outermost) call frame; `python_eval` and
`python_do_range` have no such guard, so their exceptions escape the handler
uncaught. -/
theorem claim_C2_theorem (st : HostState) (g : PyNamespace → PyNamespace)
    (tb : List String) (p : String) (a b : Nat) :
    (python_execute st (fun ns => (g ns, some tb)) a b).2 = .errorResponse (tb.drop 1)
    ∧ (python_execute_file st p (.compiled (fun ns => (g ns, some tb))) a b).2
        = .errorResponse (tb.drop 1)
    ∧ (python_eval st (fun _ => .error tb)).2 = .uncaught (.user tb)
    ∧ (python_do_range { st with buf := ["line1"] } 1 1 (fun _ _ => .ret_other "int")).2
        = .uncaught (.typeError "int") := by
  refine ⟨rfl, rfl, rfl, ?_⟩
  simp [python_do_range, python_do_range_core, rangeLoop, batchLoop, get_lines]

/-! ## C3 -/

/-- C3 counterexample: after a `python_do_range` call that terminates with
the fatal `TypeError`, the temporary `_vim_pydo` name is still bound in the
shared namespace — the `raise` occurs before the `del`. -/
theorem claim_C3_counterexample :
    ((python_do_range_core emptyNs ["a"] 1 1 (fun _ _ => .ret_other "int")).1
        pydoFname).isSome = true
    ∧ (python_do_range_core emptyNs ["a"] 1 1 (fun _ _ => .ret_other "int")).2.err
        = some "int" := by
  constructor <;>
    simp [python_do_range_core, rangeLoop, batchLoop, get_lines, nsSet, emptyNs]

/-- C3 (amended): on normal completion the temporarily installed
`_vim_pydo` is removed from the shared namespace; when the call terminates
with the fatal type error, the `raise` inside the batch loop skips the
cleanup and the name remains bound to the injected function. -/
theorem claim_C3_theorem (ns : PyNamespace) (buf : List String)
    (start stop : Nat) (f : String → Nat → PydoRet) :
    ((python_do_range_core ns buf start stop f).2.err = none →
      (python_do_range_core ns buf start stop f).1 pydoFname = none)
    ∧ (∀ c, (python_do_range_core ns buf start stop f).2.err = some c →
      (python_do_range_core ns buf start stop f).1 pydoFname = some (.pyfunc f)) := by
  unfold python_do_range_core
  cases herr : (rangeLoop f buf (start - 1) stop).err <;>
    simp [herr, nsSet, nsDel]

/-- C3 witness: the amended statement at concrete inputs, on a normally
completing call and on a call ending in the fatal type error. -/
theorem claim_C3_witness :
    (python_do_range_core emptyNs ["a"] 1 1 (fun l _ => .ret_str l)).1 pydoFname = none
    ∧ (python_do_range_core emptyNs ["b"] 1 1 (fun _ _ => .ret_other "list")).1 pydoFname
        = some (.pyfunc (fun _ _ => .ret_other "list")) := by
  constructor
  · exact (claim_C3_theorem emptyNs ["a"] 1 1 (fun l _ => .ret_str l)).1
      (by simp [python_do_range_core, rangeLoop, batchLoop, get_lines, set_lines])
  · exact (claim_C3_theorem emptyNs ["b"] 1 1 (fun _ _ => .ret_other "list")).2 "list"
      (by simp [python_do_range_core, rangeLoop, batchLoop, get_lines])

/-! ## C4 -/

/-- The C4/C6 failing transformation: deletion sentinel for line 2,
identity otherwise. -/
def delLine2 : String → Nat → PydoRet :=
  fun line nr => if nr = 2 then .ret_none else .ret_str line

/-- C4: evaluation of the code at the failing input.  With buffer
`["a", "b"]`, range start 1 / stop 2 and a transformation returning the
deletion sentinel for line 2 (identity otherwise), the claim expects the
buffer to become `["a"]`.  The code's mid-batch flush issues
`set_lines(0, 0, ["a"])` — `end = sstart + len(newlines) - 1` over a
half-open interval — inserting a duplicate line, and no call ever removes
line 2: the buffer ends as `["a", "a", "b"]`. -/
theorem claim_C4_theorem :
    (python_do_range_core emptyNs ["a", "b"] 1 2 delLine2).2.buf = ["a", "a", "b"]
    ∧ (python_do_range_core emptyNs ["a", "b"] 1 2 delLine2).2.calls
        = [ApiCall.getLines 0 2, ApiCall.setLines 0 0 ["a"]]
    ∧ (["a", "a", "b"] : List String) ≠ ["a"] := by
  refine ⟨?_, ?_, by decide⟩ <;>
    simp [python_do_range_core, rangeLoop, batchLoop, get_lines, set_lines, delLine2]

/-! ## C9 -/

/-- The `while` loop does not run on a degenerate range. -/
theorem rangeLoop_degenerate (f : String → Nat → PydoRet) (buf : List String)
    (start stop : Nat) (h : ¬ start < stop) :
    rangeLoop f buf start stop = ⟨buf, [], [], none⟩ := by
  rw [rangeLoop]
  simp [h]

/-- C9: on a degenerate range (`stop ≤ start − 1`) `python_do_range` makes
no bulk read or write, leaves the buffer unchanged, and the temporary
function is installed and then deleted, leaving `_vim_pydo` unbound
afterwards. -/
theorem claim_C9_theorem (ns : PyNamespace) (buf : List String)
    (start stop : Nat) (f : String → Nat → PydoRet)
    (h1 : 1 ≤ start) (h2 : stop ≤ start - 1) :
    (python_do_range_core ns buf start stop f).2.calls = []
    ∧ (python_do_range_core ns buf start stop f).2.buf = buf
    ∧ (python_do_range_core ns buf start stop f).1
        = nsDel (nsSet ns pydoFname (.pyfunc f)) pydoFname
    ∧ (python_do_range_core ns buf start stop f).1 pydoFname = none := by
  have hlt : ¬ start - 1 < stop := by omega
  simp [python_do_range_core, rangeLoop_degenerate f buf (start - 1) stop hlt, nsDel]

/-- C9 witness: the degenerate-range statement at concrete inputs. -/
theorem claim_C9_witness :
    (python_do_range_core emptyNs ["x"] 3 1 (fun l _ => .ret_str l)).2.calls = []
    ∧ (python_do_range_core emptyNs ["x"] 3 1 (fun l _ => .ret_str l)).2.buf = ["x"]
    ∧ (python_do_range_core emptyNs ["x"] 3 1 (fun l _ => .ret_str l)).1
        = nsDel (nsSet emptyNs pydoFname (.pyfunc (fun l _ => .ret_str l))) pydoFname
    ∧ (python_do_range_core emptyNs ["x"] 3 1 (fun l _ => .ret_str l)).1 pydoFname = none :=
  claim_C9_theorem emptyNs ["x"] 3 1 (fun l _ => .ret_str l) (by decide) (by decide)

/-! ## C7 -/

/-- A single RPC call preserves a binding it was assumed not to rebind. -/
theorem runOp_preserves (st : HostState) (op : Op) (x : String) (v : NsVal)
    (hx : x ≠ pydoFname) (hop : opPreserves x v op) (h : st.module x = some v) :
    (runOp st op).module x = some v := by
  cases op with
  | exec s a b =>
    simp only [runOp, python_execute]
    cases hs : s st.module with
    | mk ns tbopt =>
      have := hop st.module h
      rw [hs] at this
      cases tbopt <;> simpa using this
  | execFile p fl a b =>
    cases fl with
    | ioError q => simpa [runOp, python_execute_file] using h
    | compiled s =>
      simp only [runOp, python_execute_file]
      cases hs : s st.module with
      | mk ns tbopt =>
        have := hop st.module h
        rw [hs] at this
        cases tbopt <;> simpa using this
  | eval e =>
    simp only [runOp, python_eval]
    cases he : e st.module <;> simpa using h
  | doRange a b f =>
    simp only [runOp, python_do_range, python_do_range_core]
    cases herr : (rangeLoop f st.buf (a - 1) b).err <;>
      simp [herr, nsSet_other _ _ _ _ hx, nsDel_other _ _ _ hx, h]

/-- A sequence of RPC calls preserves a binding none of them rebinds. -/
theorem runOps_preserves (ops : List Op) (x : String) (v : NsVal)
    (hx : x ≠ pydoFname) :
    ∀ st : HostState, st.module x = some v →
      (∀ op ∈ ops, opPreserves x v op) → (runOps st ops).module x = some v := by
  induction ops with
  | nil => intro st h _; simpa [runOps] using h
  | cons op rest ih =>
    intro st h hops
    have h1 : (runOp st op).module x = some v :=
      runOp_preserves st op x v hx (hops op (List.mem_cons_self op rest)) h
    have := ih (runOp st op) h1 (fun o ho => hops o (List.mem_cons_of_mem op ho))
    simpa [runOps] using this

/-- C7: all RPC operations execute against the single namespace created at
initialization; a name bound by one `execute` call is still bound, to the
same value, after any sequence of further RPC calls on the same bridge
instance that do not themselves rebind it — `eval` and `do_range` never
disturb it, and `do_range`'s temporary `_vim_pydo` churn cannot touch any
other name. -/
theorem claim_C7_theorem (st : HostState) (x : String) (v : NsVal)
    (a b : Nat) (ops : List Op) (hx : x ≠ pydoFname)
    (hops : ∀ op ∈ ops, opPreserves x v op) :
    (runOps (python_execute st (fun ns => (nsSet ns x v, none)) a b).1 ops).module x
      = some v := by
  apply runOps_preserves ops x v hx _ _ hops
  simp [python_execute, nsSet_self]

/-- C7 witness: a binding made by `execute` survives a subsequent `eval` and
a subsequent `do_range` on the same instance. -/
theorem claim_C7_witness :
    (runOps (python_execute st0 (fun ns => (nsSet ns "counter" (.obj (.pyInt 1)), none)) 0 0).1
        [Op.eval (fun _ => .ok .pyNone), Op.doRange 1 0 (fun _ _ => .ret_none)]).module
      "counter" = some (.obj (.pyInt 1)) := by
  apply claim_C7_theorem st0 "counter" (.obj (.pyInt 1)) 0 0 _ (by decide)
  intro op hop
  rcases List.mem_cons.mp hop with rfl | hop
  · trivial
  · rcases List.mem_cons.mp hop with rfl | hop
    · trivial
    · cases hop

/-! ## C8 -/

/-- C8: when the (first component of the) imported module name cannot be
found in the current host-supplied search roots, `VimPathFinder.find_module`
declines by returning `None` — it does not raise a resolver-internal
error. -/
theorem claim_C8_theorem (impFind : String → List String → Option String)
    (runtimePaths : List String) (pathExists : String → Bool) (fullname : String)
    (h : impFind (firstLookupName fullname)
        (discover_runtime_directories runtimePaths pathExists) = none) :
    VimPathFinder_find_module impFind
        (discover_runtime_directories runtimePaths pathExists) fullname none
      = .ok none := by
  unfold VimPathFinder_find_module _find_module
  unfold firstLookupName at h
  cases hs : splitFirstDot fullname with
  | none =>
    rw [hs] at h
    simp [hs, h]
  | some pair =>
    cases pair with
    | mk name tail =>
      rw [hs] at h
      simp [hs, h]

/-- C8 witness: the resolver declines for a dotted name found nowhere. -/
theorem claim_C8_witness :
    VimPathFinder_find_module (fun _ _ => none)
        (discover_runtime_directories [] (fun _ => false)) "plugin.helper" none
      = .ok none :=
  claim_C8_theorem (fun _ _ => none) [] (fun _ => false) "plugin.helper" rfl

/-! ## C5: frame machinery for the batched range-apply engine -/

/-- A buffer API call whose index range lies inside `[lo, hi)`. -/
def callIn (lo hi : Nat) : ApiCall → Prop
  | .getLines s e => lo ≤ s ∧ e ≤ hi
  | .setLines s e _ => lo ≤ s ∧ e ≤ hi

theorem callIn_mono (lo' lo hi : Nat) (c : ApiCall) (h : lo' ≤ lo) :
    callIn lo hi c → callIn lo' hi c := by
  cases c <;> exact fun hc => ⟨le_trans h hc.1, hc.2⟩

/-- The buffer still decomposes as the untouched prefix `P`, a middle part at
least as long as the processed range, and the untouched suffix `S`. -/
def bufFrame (P S : List String) (start0 stop : Nat) (buf : List String) : Prop :=
  ∃ M, buf = P ++ M ++ S ∧ stop ≤ start0 + M.length

/-- Effect of a `set_lines` call that stays inside the middle part. -/
theorem set_lines_frame (P M S repl : List String) (s e : Nat)
    (hs : P.length ≤ s) (hse : s ≤ e) (he : e ≤ P.length + M.length) :
    set_lines (P ++ M ++ S) s e repl
      = P ++ (M.take (s - P.length) ++ repl ++ M.drop (e - P.length)) ++ S := by
  unfold set_lines
  have htake : (P ++ M ++ S).take s = P ++ M.take (s - P.length) := by
    rw [List.append_assoc, List.take_append_eq_append_take,
        List.take_of_length_le hs, List.take_append_eq_append_take]
    have h1 : s - P.length - M.length = 0 := by omega
    rw [h1]
    simp
  have hdrop : (P ++ M ++ S).drop e = M.drop (e - P.length) ++ S := by
    rw [List.append_assoc, List.drop_append_eq_append_drop,
        List.drop_eq_nil_of_le (by omega), List.drop_append_eq_append_drop]
    have h1 : e - P.length - M.length = 0 := by omega
    rw [h1]
    simp
  rw [htake, hdrop]
  simp [List.append_assoc]

/-- An in-range `set_lines` whose replacement is at least as long as the
replaced interval preserves the frame. -/
theorem bufFrame_set_lines (P S : List String) (start0 stop : Nat)
    (buf repl : List String) (s e : Nat) (hP : P.length = start0)
    (hfr : bufFrame P S start0 stop buf)
    (hs : start0 ≤ s) (hse : s ≤ e) (he : e ≤ stop) (hrepl : e ≤ s + repl.length) :
    bufFrame P S start0 stop (set_lines buf s e repl) := by
  obtain ⟨M, rfl, hM⟩ := hfr
  refine ⟨M.take (s - P.length) ++ repl ++ M.drop (e - P.length), ?_, ?_⟩
  · exact set_lines_frame P M S repl s e (by omega) hse (by omega)
  · have h1 : (M.take (s - P.length) ++ repl ++ M.drop (e - P.length)).length
        = min (s - P.length) M.length + repl.length + (M.length - (e - P.length)) := by
      simp only [List.length_append, List.length_take, List.length_drop]
    omega

/-- Master invariant for the per-batch loop: the frame is preserved, the
write cursor only advances, cursor plus pending run stay bounded by the
lines still to process, and every write stays inside `[sstart, stop)`. -/
theorem batchLoop_master (f : String → Nat → PydoRet) (P S : List String)
    (start0 stop : Nat) (hP : P.length = start0) (lines : List String) :
    ∀ (buf : List String) (sstart : Nat) (pending : List String) (linenr : Nat),
      start0 ≤ sstart →
      sstart + pending.length + lines.length ≤ stop →
      bufFrame P S start0 stop buf →
      bufFrame P S start0 stop (batchLoop f buf sstart pending linenr lines).buf
      ∧ sstart ≤ (batchLoop f buf sstart pending linenr lines).sstart
      ∧ (batchLoop f buf sstart pending linenr lines).sstart
          + (batchLoop f buf sstart pending linenr lines).newlines.length
          ≤ sstart + pending.length + lines.length
      ∧ ∀ c ∈ (batchLoop f buf sstart pending linenr lines).calls, callIn sstart stop c := by
  induction lines with
  | nil =>
    intro buf sstart pending linenr h0 hbound hfr
    refine ⟨hfr, le_refl _, by simp [batchLoop], by simp [batchLoop]⟩
  | cons line rest ih =>
    intro buf sstart pending linenr h0 hbound hfr
    simp only [List.length_cons] at hbound
    cases hf : f line linenr with
    | ret_str s =>
      obtain ⟨ha, hb, hc, hd⟩ := ih buf sstart (pending ++ [s]) (linenr + 1) h0
        (by simp only [List.length_append, List.length_cons, List.length_nil]; omega) hfr
      simp only [batchLoop, hf]
      refine ⟨by simpa using ha, by simpa using hb, ?_, ?_⟩
      · simp only [List.length_append, List.length_cons, List.length_nil] at hc ⊢
        omega
      · intro c hcc
        exact hd c hcc
    | ret_none =>
      by_cases hp : pending.isEmpty
      · rw [List.isEmpty_iff] at hp
        subst hp
        obtain ⟨ha, hb, hc, hd⟩ := ih buf (sstart + List.length ([] : List String) + 1)
          [] (linenr + 1) (by simp; omega) (by simp only [List.length_nil] at *; omega) hfr
        simp only [batchLoop, hf, if_pos List.isEmpty_nil]
        simp only [List.length_nil] at ha hb hc hd ⊢
        refine ⟨by simpa using ha, le_trans (by omega) hb, ?_, ?_⟩
        · simp only [List.length_cons]
          omega
        · intro c hcc
          exact callIn_mono sstart _ stop c (by omega) (hd c hcc)
      · have hpl : 1 ≤ pending.length := by
          cases pending with
          | nil => simp at hp
          | cons a l => simp
        have hfr1 : bufFrame P S start0 stop
            (set_lines buf sstart (sstart + pending.length - 1) pending) :=
          bufFrame_set_lines P S start0 stop buf pending sstart
            (sstart + pending.length - 1) hP hfr h0 (by omega) (by omega) (by omega)
        obtain ⟨ha, hb, hc, hd⟩ := ih (set_lines buf sstart (sstart + pending.length - 1) pending)
          (sstart + pending.length + 1) [] (linenr + 1) (by omega)
          (by simp only [List.length_nil]; omega) hfr1
        simp only [batchLoop, hf, if_neg hp]
        simp only [List.length_nil] at hc
        refine ⟨by simpa using ha, le_trans (by omega) hb, ?_, ?_⟩
        · simp only [List.length_cons]
          omega
        · intro c hcc
          simp only [List.mem_cons] at hcc
          rcases hcc with rfl | hcc
          · exact ⟨le_refl _, by omega⟩
          · exact callIn_mono sstart _ stop c (by omega) (hd c hcc)
    | ret_other c0 =>
      simp only [batchLoop, hf]
      refine ⟨hfr, le_refl _, by omega, by simp⟩

/-- The buffer after the end-of-batch flush of the pending run
(`if newlines: set_lines(sstart, sstart + len(newlines), newlines)`). -/
def flushBuf (o : BatchOut) : List String :=
  if o.newlines.isEmpty then o.buf
  else set_lines o.buf o.sstart (o.sstart + o.newlines.length) o.newlines

/-- The write issued by the end-of-batch flush, if any. -/
def flushCalls (o : BatchOut) : List ApiCall :=
  if o.newlines.isEmpty then []
  else [ApiCall.setLines o.sstart (o.sstart + o.newlines.length) o.newlines]

/-- One unfolding of the `while` loop when the range is non-empty. -/
theorem rangeLoop_step (f : String → Nat → PydoRet) (buf : List String)
    (start stop : Nat) (h : start < stop) :
    rangeLoop f buf start stop =
      (let sstop := min (start + 5000) stop
       let o := batchLoop f buf start [] (start + 1) (get_lines buf start sstop)
       match o.err with
       | some c => ⟨flushBuf o, ApiCall.getLines start sstop :: (o.calls ++ flushCalls o),
                    o.fcalls, some c⟩
       | none =>
           let r := rangeLoop f (flushBuf o) sstop stop
           ⟨r.buf, ApiCall.getLines start sstop :: (o.calls ++ flushCalls o) ++ r.calls,
            o.fcalls ++ r.fcalls, r.err⟩) := by
  rw [rangeLoop, dif_pos h]
  by_cases hne : (batchLoop f buf start [] (start + 1)
      (get_lines buf start (min (start + 5000) stop))).newlines.isEmpty <;>
    simp only [flushBuf, flushCalls, if_pos, if_neg, hne, if_true, if_false, ite_true,
      ite_false, Bool.false_eq_true]

/-- The end-of-batch flush preserves the frame. -/
theorem flushBuf_frame (P S : List String) (start0 stop : Nat) (o : BatchOut)
    (hP : P.length = start0) (hfr : bufFrame P S start0 stop o.buf)
    (hs : start0 ≤ o.sstart) (he : o.sstart + o.newlines.length ≤ stop) :
    bufFrame P S start0 stop (flushBuf o) := by
  unfold flushBuf
  by_cases hne : o.newlines.isEmpty
  · simpa [hne] using hfr
  · simp only [hne, if_false, Bool.false_eq_true, ite_false]
    exact bufFrame_set_lines P S start0 stop o.buf o.newlines o.sstart
      (o.sstart + o.newlines.length) hP hfr hs (by omega) he (by omega)

/-- The end-of-batch flush writes only inside `[lo, stop)`. -/
theorem flushCalls_in (lo stop : Nat) (o : BatchOut)
    (hs : lo ≤ o.sstart) (he : o.sstart + o.newlines.length ≤ stop) :
    ∀ c ∈ flushCalls o, callIn lo stop c := by
  unfold flushCalls
  by_cases hne : o.newlines.isEmpty <;>
    simp only [hne, if_true, if_false, ite_true, ite_false, Bool.false_eq_true]
  · simp
  · intro c hc
    simp only [List.mem_singleton] at hc
    subst hc
    exact ⟨hs, he⟩

/-- Master invariant for the `while` loop: the frame is preserved, every
bulk read and write stays inside `[start, stop)`, and on normal completion
the bulk reads cover every line of `[start, stop)`. -/
theorem rangeLoop_master (f : String → Nat → PydoRet) (P S : List String)
    (start0 stop : Nat) (hP : P.length = start0) :
    ∀ (n : Nat) (buf : List String) (start : Nat),
      stop - start ≤ n →
      start0 ≤ start →
      bufFrame P S start0 stop buf →
      bufFrame P S start0 stop (rangeLoop f buf start stop).buf
      ∧ (∀ c ∈ (rangeLoop f buf start stop).calls, callIn start stop c)
      ∧ ((rangeLoop f buf start stop).err = none →
          ∀ i, start ≤ i → i < stop →
            ∃ s e, ApiCall.getLines s e ∈ (rangeLoop f buf start stop).calls
              ∧ s ≤ i ∧ i < e) := by
  intro n
  induction n with
  | zero =>
    intro buf start h0 h1 hfr
    rw [rangeLoop_degenerate f buf start stop (by omega)]
    exact ⟨hfr, by simp, by intro _ i hi1 hi2; omega⟩
  | succ n ih =>
    intro buf start h0 h1 hfr
    by_cases hlt : start < stop
    case neg =>
      rw [rangeLoop_degenerate f buf start stop hlt]
      exact ⟨hfr, by simp, by intro _ i hi1 hi2; omega⟩
    case pos =>
      rw [rangeLoop_step f buf start stop hlt]
      simp only []
      have hsstop2 : min (start + 5000) stop ≤ stop := min_le_right _ _
      have hlines : (get_lines buf start (min (start + 5000) stop)).length
          ≤ min (start + 5000) stop - start := by
        simp only [get_lines, List.length_take, List.length_drop]
        omega
      obtain ⟨ba, bb, bc, bd⟩ := batchLoop_master f P S start0 stop hP
        (get_lines buf start (min (start + 5000) stop)) buf start [] (start + 1)
        h1 (by simp only [List.length_nil]; omega) hfr
      simp only [List.length_nil] at bc
      set O := batchLoop f buf start [] (start + 1)
        (get_lines buf start (min (start + 5000) stop)) with hO
      have hOfr : bufFrame P S start0 stop (flushBuf O) :=
        flushBuf_frame P S start0 stop O hP ba (by omega) (by omega)
      have hOcalls : ∀ c ∈ flushCalls O, callIn start stop c :=
        flushCalls_in start stop O bb (by omega)
      cases hoerr : O.err with
      | some c0 =>
        simp only [hoerr]
        refine ⟨hOfr, ?_, ?_⟩
        · intro c hc
          simp only [List.mem_cons, List.mem_append] at hc
          rcases hc with rfl | hc | hc
          · exact ⟨le_refl _, hsstop2⟩
          · exact bd c hc
          · exact hOcalls c hc
        · intro herr
          simp at herr
      | none =>
        simp only [hoerr]
        obtain ⟨ra, rb, rc⟩ := ih (flushBuf O) (min (start + 5000) stop)
          (by omega) (by omega) hOfr
        refine ⟨ra, ?_, ?_⟩
        · intro c hc
          simp only [List.mem_cons, List.mem_append] at hc
          rcases hc with (rfl | hc | hc) | hc
          · exact ⟨le_refl _, hsstop2⟩
          · exact bd c hc
          · exact hOcalls c hc
          · exact callIn_mono start _ stop c (by omega) (rb c hc)
        · intro herr i hi1 hi2
          by_cases hi : i < min (start + 5000) stop
          · exact ⟨start, min (start + 5000) stop,
              List.mem_append_left _ (List.mem_cons_self _ _), hi1, hi⟩
          · obtain ⟨s, e, hm, hs, he⟩ := rc herr i (by omega) hi2
            exact ⟨s, e, List.mem_append_right _ hm, hs, he⟩

/-- Splitting a list at two positions. -/
theorem list_split3 (l : List String) (a b : Nat) (hab : a ≤ b) :
    l = l.take a ++ (l.drop a).take (b - a) ++ l.drop b := by
  have h2 : l.drop a = (l.drop a).take (b - a) ++ (l.drop a).drop (b - a) :=
    (List.take_append_drop _ _).symm
  have h3 : (l.drop a).drop (b - a) = l.drop b := by
    rw [List.drop_drop]
    congr 1
    omega
  calc l = l.take a ++ l.drop a := (List.take_append_drop a l).symm
    _ = l.take a ++ ((l.drop a).take (b - a) ++ l.drop b) := by rw [← h3, ← h2]
    _ = l.take a ++ (l.drop a).take (b - a) ++ l.drop b := by rw [List.append_assoc]

/-- The `RangeOut` component of `python_do_range_core` is the loop result
regardless of which namespace branch is taken. -/
theorem python_do_range_core_snd (ns : PyNamespace) (buf : List String)
    (start stop : Nat) (f : String → Nat → PydoRet) :
    (python_do_range_core ns buf start stop f).2 = rangeLoop f buf (start - 1) stop := by
  unfold python_do_range_core
  cases herr : (rangeLoop f buf (start - 1) stop).err <;> simp [herr]

/-- C5: for every valid range (1 ≤ start ≤ stop ≤ buffer length),
`python_do_range` reads and writes only inside the half-open 0-based
interval `[start − 1, stop)` (1-based lines `start ..= stop`): every bulk
read and write it issues has its index range inside that interval, on
normal completion the bulk reads cover every line of the interval, and the
lines outside it — the prefix before `start − 1` and the suffix from `stop`
on — pass through to the final buffer unchanged. -/
theorem claim_C5_theorem (ns : PyNamespace) (buf : List String) (start stop : Nat)
    (f : String → Nat → PydoRet) (h1 : 1 ≤ start) (h2 : start ≤ stop)
    (h3 : stop ≤ buf.length) :
    (∃ mid, (python_do_range_core ns buf start stop f).2.buf
        = buf.take (start - 1) ++ mid ++ buf.drop stop)
    ∧ (∀ c ∈ (python_do_range_core ns buf start stop f).2.calls, callIn (start - 1) stop c)
    ∧ ((python_do_range_core ns buf start stop f).2.err = none →
        ∀ i, start - 1 ≤ i → i < stop →
          ∃ s e, ApiCall.getLines s e ∈ (python_do_range_core ns buf start stop f).2.calls
            ∧ s ≤ i ∧ i < e) := by
  rw [python_do_range_core_snd]
  have hP : (buf.take (start - 1)).length = start - 1 := by
    simp only [List.length_take]
    omega
  have hfr0 : bufFrame (buf.take (start - 1)) (buf.drop stop) (start - 1) stop buf := by
    refine ⟨(buf.drop (start - 1)).take (stop - (start - 1)), ?_, ?_⟩
    · exact list_split3 buf (start - 1) stop (by omega)
    · simp only [List.length_take, List.length_drop]
      omega
  obtain ⟨ma, mb, mc⟩ := rangeLoop_master f (buf.take (start - 1)) (buf.drop stop)
    (start - 1) stop hP stop buf (start - 1) (by omega) (le_refl _) hfr0
  exact ⟨by obtain ⟨M, hM, _⟩ := ma; exact ⟨M, hM⟩, mb, mc⟩

/-- C5 witness: the frame statement at a concrete state and range. -/
theorem claim_C5_witness :
    (∃ mid, (python_do_range_core emptyNs ["a"] 1 1 (fun l _ => .ret_str l)).2.buf
        = List.take 0 ["a"] ++ mid ++ List.drop 1 ["a"])
    ∧ (∀ c ∈ (python_do_range_core emptyNs ["a"] 1 1 (fun l _ => .ret_str l)).2.calls,
        callIn 0 1 c)
    ∧ ((python_do_range_core emptyNs ["a"] 1 1 (fun l _ => .ret_str l)).2.err = none →
        ∀ i, 0 ≤ i → i < 1 →
          ∃ s e, ApiCall.getLines s e
              ∈ (python_do_range_core emptyNs ["a"] 1 1 (fun l _ => .ret_str l)).2.calls
            ∧ s ≤ i ∧ i < e) :=
  claim_C5_theorem emptyNs ["a"] 1 1 (fun l _ => .ret_str l)
    (by decide) (by decide) (by decide)

/-! ## C6 -/

/-- Dropping from `range'`. -/
theorem range'_drop (k : Nat) : ∀ s n, (List.range' s n).drop k = List.range' (s + k) (n - k) := by
  induction k with
  | zero => intro s n; simp
  | succ k ih =>
    intro s n
    cases n with
    | zero => simp [List.range']
    | succ n =>
      rw [List.range'_succ s n 1, List.drop_succ_cons, ih (s + 1) n,
        show s + 1 + k = s + (k + 1) from by omega,
        show n - k = n + 1 - (k + 1) from by omega]

/-- A batch whose remaining calls all return the deletion sentinel with an
empty pending run just advances the cursor, numbering the lines
consecutively. -/
theorem batchLoop_allNone (f : String → Nat → PydoRet) (lines : List String) :
    ∀ (buf : List String) (sstart linenr : Nat),
      (∀ i (hi : i < lines.length), f (lines.get ⟨i, hi⟩) (linenr + i) = .ret_none) →
      batchLoop f buf sstart [] linenr lines
        = ⟨buf, sstart + lines.length, [], [],
           lines.zip (List.range' linenr lines.length), none⟩ := by
  induction lines with
  | nil => intro buf sstart linenr _; simp [batchLoop]
  | cons line rest ih =>
    intro buf sstart linenr h
    have hf : f line linenr = .ret_none := by simpa using h 0 (by simp)
    have hrest : ∀ i (hi : i < rest.length), f (rest.get ⟨i, hi⟩) ((linenr + 1) + i)
        = .ret_none := by
      intro i hi
      have := h (i + 1) (by simpa using Nat.succ_lt_succ hi)
      rwa [show linenr + (i + 1) = linenr + 1 + i from by omega,
        show (line :: rest).get ⟨i + 1, by simpa using Nat.succ_lt_succ hi⟩
          = rest.get ⟨i, hi⟩ from rfl] at this
    simp only [batchLoop, hf, if_pos List.isEmpty_nil]
    rw [ih buf (sstart + List.length ([] : List String) + 1) (linenr + 1) hrest]
    simp only [BatchOut.mk.injEq, List.length_nil, List.length_cons, true_and, and_true]
    refine ⟨by omega, ?_⟩
    rw [List.range'_succ linenr rest.length 1, List.zip_cons_cons]

/-- The transformation exhibiting the cross-batch misnumbering: replacement
text for line 1, the deletion sentinel everywhere else. -/
def f6 : String → Nat → PydoRet :=
  fun _ nr => if nr = 1 then .ret_str "A" else .ret_none

/-- A 5002-line buffer whose line at 1-based position `p` is the string of
`p - 1`. -/
def bigBuf : List String := (List.range 5002).map (fun n => toString n)

/-- Effect of the first batch of `f6`: the mid-batch flush at line 2 inserts
the extra copy (set_lines 0 0 ["A"] on the half-open interval), and the rest
of the batch advances the cursor. -/
theorem f6_batch (buf : List String) (x y : String) (rest : List String) :
    batchLoop f6 buf 0 [] 1 (x :: y :: rest)
      = ⟨"A" :: buf, 2 + rest.length, [], [ApiCall.setLines 0 0 ["A"]],
         (x, 1) :: (y, 2) :: rest.zip (List.range' 3 rest.length), none⟩ := by
  have hfx : f6 x 1 = .ret_str "A" := rfl
  have hfy : f6 y 2 = .ret_none := rfl
  have hrest : ∀ i (hi : i < rest.length), f6 (rest.get ⟨i, hi⟩) (3 + i) = .ret_none := by
    intro i hi
    show (if 3 + i = 1 then PydoRet.ret_str "A" else PydoRet.ret_none) = PydoRet.ret_none
    rw [if_neg (by omega)]
  simp only [batchLoop, hfx, hfy]
  norm_num
  rw [show set_lines buf 0 0 ["A"] = "A" :: buf from by simp [set_lines],
    batchLoop_allNone f6 rest ("A" :: buf) 2 3 hrest]
  exact ⟨rfl, rfl, rfl, rfl, rfl, rfl⟩

/-- Any 5000-element list splits off its first two elements. -/
theorem exists_two_cons (l : List String) (h : l.length = 5000) :
    ∃ x y rest, l = x :: y :: rest ∧ rest.length = 4998 := by
  match l, h with
  | x :: y :: rest, h => exact ⟨x, y, rest, rfl, by simpa using h⟩

/-- C6: evaluation of the code at the failing input.  On a 5002-line buffer
whose 1-based line `p` reads `toString (p - 1)`, with a transformation that
returns replacement text for line 1 and the deletion sentinel afterwards,
the mid-batch flush of batch 1 inserts an extra line (the C4 slip), so batch
2 reads shifted content: the user function is called with the pair
`("4999", 5001)`, although the line at original 1-based position 5001 is
`"5000"` — the line number no longer matches the line's original
position. -/
theorem claim_C6_theorem :
    ("4999", 5001) ∈ (python_do_range_core emptyNs bigBuf 1 5002 f6).2.fcalls
    ∧ bigBuf[5000]? = some "5000"
    ∧ ("4999" : String) ≠ "5000" := by
  have hdrop : bigBuf.drop 4999 = ["4999", "5000", "5001"] := by
    rw [bigBuf, ← List.map_drop, List.range_eq_range' 5002, range'_drop]
    decide
  have hget : bigBuf[5000]? = some "5000" := by
    have h2 := List.getElem?_drop bigBuf 4999 1
    rw [hdrop] at h2
    simpa using h2.symm
  refine ⟨?_, hget, by decide⟩
  have hlen : bigBuf.length = 5002 := by rw [bigBuf]; simp
  have htlen : (bigBuf.take 5000).length = 5000 := by
    rw [List.length_take, hlen]
    norm_num
  obtain ⟨x, y, rest, hx, hrlen⟩ := exists_two_cons (bigBuf.take 5000) htlen
  -- batch 1
  have hlines1 : get_lines bigBuf 0 (min (0 + 5000) 5002) = x :: y :: rest := by
    rw [show min (0 + 5000) 5002 = 5000 from by norm_num]
    simpa [get_lines] using hx
  have hO : batchLoop f6 bigBuf 0 [] (0 + 1) (get_lines bigBuf 0 (min (0 + 5000) 5002))
      = ⟨"A" :: bigBuf, 2 + rest.length, [], [ApiCall.setLines 0 0 ["A"]],
         (x, 1) :: (y, 2) :: rest.zip (List.range' 3 rest.length), none⟩ := by
    rw [hlines1]
    exact f6_batch bigBuf x y rest
  -- batch 2
  have hlines2 : get_lines ("A" :: bigBuf) 5000 (min (5000 + 5000) 5002)
      = ["4999", "5000"] := by
    rw [show min (5000 + 5000) 5002 = 5002 from by norm_num]
    show (("A" :: bigBuf).drop 5000).take (5002 - 5000) = _
    rw [show (5000 : Nat) = 4999 + 1 from rfl, List.drop_succ_cons, hdrop]
    rfl
  have hO2 : batchLoop f6 ("A" :: bigBuf) 5000 [] (5000 + 1)
        (get_lines ("A" :: bigBuf) 5000 (min (5000 + 5000) 5002))
      = ⟨"A" :: bigBuf, 5002, [], [], [("4999", 5001), ("5000", 5002)], none⟩ := by
    rw [hlines2]
    simp [batchLoop, f6]
  -- inner loop call: second batch then termination
  have hr2 : rangeLoop f6 ("A" :: bigBuf) 5000 5002
      = ⟨"A" :: bigBuf, [ApiCall.getLines 5000 5002], [("4999", 5001), ("5000", 5002)],
         none⟩ := by
    rw [rangeLoop_step f6 ("A" :: bigBuf) 5000 5002 (by norm_num)]
    simp only [hO2]
    rw [rangeLoop_degenerate f6 (flushBuf _) (min (5000 + 5000) 5002) 5002 (by norm_num)]
    simp [flushBuf, flushCalls]
  -- outer loop call: first batch then the inner call
  rw [python_do_range_core_snd, show (1 : Nat) - 1 = 0 from rfl,
    rangeLoop_step f6 bigBuf 0 5002 (by norm_num)]
  simp only [hO, hr2]
  simp [flushBuf, flushCalls]
  right
  rw [hr2]
  simp
